import Mathlib

/-!
# Verification of the OSA native text primitives

Shallow embedding of the three native functions exposed by the repository
(`src/native/osa_nif/src/tokenizer.rs` and `src/native/osa_nif/src/text.rs`):
`count_tokens`, `calculate_weight` and `word_count`, together with proofs of
the specified properties.

Modelling conventions:
* Rust `f64` arithmetic is modelled with exact rationals (`ℚ`); every numeric
  constant appearing in the source (`0.5`, `500.0`, `0.2`, `0.15`, `0.3`,
  `0.0`, `1.0`) is an exact decimal rational.
* Strings are Lean `String`s; `text.chars().count()` is the number of Unicode
  scalar values, i.e. `String.length`.
* The two compiled regular expressions `(?i)\b(urgent|...)\b` and
  `(?i)\b(hello|...)\b` are modelled by an executable whole-word,
  case-insensitive scanner over the character list; the word-character class
  and case folding are taken on the ASCII range, which covers every pattern
  word in the source.
* The external `tiktoken_rs` encoder is not part of the repository sources;
  its greedy byte-pair-encoding merge is modelled from the specification,
  parameterised by an abstract rank table.
-/

namespace OSA

/-! ## Character classes (text.rs helpers) -/

/-- Rust `char::is_whitespace`: the Unicode `White_Space` property, used by
`str::split_whitespace` in `word_count`. -/
def rustIsWhitespace (c : Char) : Bool :=
  let n := c.toNat
  n == 0x09 || n == 0x0A || n == 0x0B || n == 0x0C || n == 0x0D || n == 0x20 ||
  n == 0x85 || n == 0xA0 || n == 0x1680 || (0x2000 ≤ n && n ≤ 0x200A) ||
  n == 0x2028 || n == 0x2029 || n == 0x202F || n == 0x205F || n == 0x3000

/-- Regex word character (the class backing `\b` boundaries), restricted to the
ASCII range: letters, digits and underscore.  Every word in the source's two
patterns is ASCII, so this fragment decides all boundary checks that arise. -/
def isWordChar (c : Char) : Bool :=
  c.isAlphanum || c == '_'

/-! ## Whole-word case-insensitive matching (`urgency_regex` / `noise_regex`)

The source compiles `(?i)\b(w1|...|wn)\b` once and calls `is_match`.  We model
`is_match` as: some word of the list occurs in the lowercased text with a
non-word character (or the string edge) on each side. -/

/-- Does word `w` start exactly here, ending at a word boundary?
`wordHere w t` holds when `w` is an initial segment of `t` and the character
of `t` that follows it (if any) is not a word character. -/
def wordHere : List Char → List Char → Bool
  | [], [] => true
  | [], c :: _ => !isWordChar c
  | _ :: _, [] => false
  | a :: w, c :: t => a == c && wordHere w t

/-- Scan the text for any of the words `ws`, tracking the previous character
to decide the left word boundary (`none` at the start of the string). -/
def scanWords (ws : List (List Char)) : Option Char → List Char → Bool
  | prev, [] =>
    (match prev with | none => true | some p => !isWordChar p) &&
      ws.any (fun w => wordHere w [])
  | prev, c :: rest =>
    ((match prev with | none => true | some p => !isWordChar p) &&
      ws.any (fun w => wordHere w (c :: rest)))
    || scanWords ws (some c) rest

/-- Matching of `(?i)\b(w1|...|wn)\b`: lowercase the text (ASCII case
folding, as all pattern words are ASCII) and scan for a whole-word
occurrence. -/
def matchesAnyWord (ws : List String) (t : String) : Bool :=
  scanWords (ws.map (fun w => w.data)) none (t.data.map Char.toLower)

/-- The alternatives of `urgency_regex` in `text.rs`. -/
def urgencyWords : List String :=
  ["urgent", "asap", "critical", "emergency", "immediately", "now"]

/-- The alternatives of `noise_regex` in `text.rs`. -/
def noiseWords : List String :=
  ["hello", "thanks", "lol", "haha", "hi", "ok", "hey", "sure"]

/-! ## `calculate_weight` (text.rs lines 22–43) -/

/-- Rust `f64::clamp(lo, hi)`. -/
def clampQ (lo hi x : ℚ) : ℚ :=
  if x < lo then lo else if x > hi then hi else x

/-- Translation of `calculate_weight` from `text.rs`: base 0.5, capped length
bonus over the codepoint count, question bonus, urgency bonus, noise penalty,
then clamp into `[0, 1]`. -/
def calculate_weight (text : String) : ℚ :=
  let base : ℚ := 0.5
  let lengthBonus : ℚ := min ((text.length : ℚ) / 500) 0.2
  let questionBonus : ℚ := if text.data.contains '?' then 0.15 else 0
  let urgencyBonus : ℚ := if matchesAnyWord urgencyWords text then 0.2 else 0
  let noisePenalty : ℚ := if matchesAnyWord noiseWords text then -0.3 else 0
  clampQ 0 1 (base + lengthBonus + questionBonus + urgencyBonus + noisePenalty)

/-- The weight formula exactly as the specification words it: five
independently evaluated terms — base, `min(codepoints/500, 0.2)`, `+0.15` for
a literal question mark, `+0.2` for an urgency word, `−0.3` (written as a
subtraction) for a noise word — summed and clamped into `[0, 1]`. -/
def specWeight (t : String) : ℚ :=
  clampQ 0 1
    (0.5 + min ((t.data.length : ℚ) / 500) 0.2
      + (if t.data.contains '?' then 0.15 else 0)
      + (if matchesAnyWord urgencyWords t then 0.2 else 0)
      - (if matchesAnyWord noiseWords t then 0.3 else 0))

/-! ## `word_count` (text.rs lines 45–48) -/

/-- Splitting a character list at whitespace, keeping the (possibly empty)
pieces between separators: the split underlying Rust `split_whitespace`. -/
def splitOnWs : List Char → List (List Char)
  | [] => [[]]
  | c :: rest =>
    if rustIsWhitespace c then [] :: splitOnWs rest
    else
      match splitOnWs rest with
      | [] => [[c]]
      | h :: t => (c :: h) :: t

/-- Translation of `word_count` from `text.rs`:
`text.split_whitespace().count()` — split at Unicode whitespace, discard the
empty pieces, count the rest. -/
def word_count (t : String) : Nat :=
  ((splitOnWs t.data).filter (fun p => !p.isEmpty)).length

/-- The specification's characterisation: the number of maximal runs of
non-whitespace characters.  `countRuns inWord cs` counts the runs of `cs`,
where `inWord` records whether a run is already open on the left. -/
def countRuns : Bool → List Char → Nat
  | _, [] => 0
  | inWord, c :: rest =>
    if rustIsWhitespace c then countRuns false rest
    else (if inWord then 0 else 1) + countRuns true rest

/-! ## Tokenizer (tokenizer.rs)

`count_tokens` calls `tiktoken_rs`'s `CoreBPE::encode_ordinary` on the lazily
initialised `cl100k_base` table and returns the token-list length, converting
any panic of the encode step to `0` via `catch_unwind`.  The encoder itself
lives in the external `tiktoken_rs` crate, outside the repository sources, so
the greedy byte-pair-encoding merge is modelled from the specification, over
an abstract merge-rank table. -/

/-- Modelled from the spec: a merge-rank table — the `cl100k_base` data —
assigning priorities (lower = merged earlier) to byte sequences; the table
itself is an external bundled artifact, so it is kept abstract. -/
def Ranks : Type := List Nat → Option Nat

/-- UTF-8 encoding of one Unicode scalar value, as a list of byte values. -/
def utf8Char (c : Char) : List Nat :=
  let n := c.toNat
  if n < 0x80 then [n]
  else if n < 0x800 then [0xC0 + n / 64, 0x80 + n % 64]
  else if n < 0x10000 then [0xE0 + n / 4096, 0x80 + (n / 64) % 64, 0x80 + n % 64]
  else [0xF0 + n / 262144, 0x80 + (n / 4096) % 64, 0x80 + (n / 64) % 64, 0x80 + n % 64]

/-- UTF-8 byte sequence of a string. -/
def utf8Bytes (s : String) : List Nat :=
  (s.data.map utf8Char).flatten

/-- Index and rank of the highest-priority (lowest-rank, leftmost on ties)
mergeable adjacent pair of parts, if any. -/
def bestIdx (r : Ranks) : List (List Nat) → Option (Nat × Nat)
  | [] => none
  | [_] => none
  | a :: b :: rest =>
    match r (a ++ b), bestIdx r (b :: rest) with
    | none, none => none
    | some k, none => some (0, k)
    | none, some (j, k) => some (j + 1, k)
    | some k, some (j, k') => if k ≤ k' then some (0, k) else some (j + 1, k')

/-- Merge the adjacent pair of parts at index `i`. -/
def mergeAt : List (List Nat) → Nat → List (List Nat)
  | a :: b :: rest, 0 => (a ++ b) :: rest
  | x :: rest, n + 1 => x :: mergeAt rest n
  | l, _ => l

/-- Modelled from the spec: "repeatedly merge the highest-priority adjacent
byte-sequence pair per the precomputed rank table until no further merges
apply".  Each merge shortens the list, so `fuel` bounded by the initial
length suffices. -/
def mergeLoop (r : Ranks) : Nat → List (List Nat) → List (List Nat)
  | 0, parts => parts
  | fuel + 1, parts =>
    match bestIdx r parts with
    | none => parts
    | some (i, _) => mergeLoop r fuel (mergeAt parts i)

/-- Modelled from the spec: `encode_ordinary` — greedy byte-pair-encoding of
the UTF-8 bytes of the input under rank table `r`, with no special-token
substitution; returns the final token (byte-sequence) list. -/
def encode_ordinary (r : Ranks) (s : String) : List (List Nat) :=
  let bytes := utf8Bytes s
  mergeLoop r bytes.length (bytes.map (fun b => [b]))

/-- Translation of `count_tokens` from `tokenizer.rs`.  The `catch_unwind`
boundary is modelled by letting the wrapped closure's execution be an
arbitrary `run : String → Except Unit Nat`: `Except.ok n` is a normal return
of `n`, `Except.error ()` a panic.  `Ok(count) => count, Err(_) => 0`. -/
def count_tokens (run : String → Except Unit Nat) (s : String) : Nat :=
  match run s with
  | .ok n => n
  | .error _ => 0

/-- The non-panicking execution of the closure inside `catch_unwind`:
`get_encoding().encode_ordinary(text).len()` with table `r`. -/
def okRun (r : Ranks) : String → Except Unit Nat :=
  fun s => .ok (encode_ordinary r s).length

/-- Process-wide state of the `ENCODING: OnceLock<CoreBPE>` cell. -/
structure TokState where
  enc : Option Ranks

/-- Translation of `get_encoding` from `tokenizer.rs`: `get_or_init` returns
the stored table if the cell is initialised, otherwise stores and returns the
freshly constructed table `mk` (the `cl100k_base` constructor). -/
def get_encoding (mk : Ranks) (st : TokState) : Ranks × TokState :=
  match st.enc with
  | some e => (e, st)
  | none => (mk, ⟨some mk⟩)

/-- The function `count_tokens` with the `OnceLock` state made explicit:
fetch (or initialise) the encoding table, then count the tokens of
`encode_ordinary`. -/
def count_tokens_st (mk : Ranks) (s : String) (st : TokState) : Nat × TokState :=
  let p := get_encoding mk st
  ((encode_ordinary p.1 s).length, p.2)

/-! ## Helper lemmas -/

/-- Clamping lands in the interval when the bounds are ordered. -/
theorem clampQ_mem (lo hi x : ℚ) (h : lo ≤ hi) :
    lo ≤ clampQ lo hi x ∧ clampQ lo hi x ≤ hi := by
  unfold clampQ
  split_ifs with h1 h2
  · exact ⟨le_refl _, h⟩
  · exact ⟨h, le_refl _⟩
  · exact ⟨not_lt.mp h1, not_lt.mp h2⟩

/-- A lower bound below both the value and the upper clamp survives
clamping. -/
theorem le_clampQ (b lo hi x : ℚ) (hbx : b ≤ x) (hbhi : b ≤ hi) :
    b ≤ clampQ lo hi x := by
  unfold clampQ
  split_ifs with h1 h2
  · linarith
  · exact hbhi
  · exact hbx

/-- Whitespace splitting never yields an empty list of pieces. -/
theorem splitOnWs_ne_nil (cs : List Char) : splitOnWs cs ≠ [] := by
  induction cs with
  | nil => simp [splitOnWs]
  | cons c rest ih =>
    simp only [splitOnWs]
    split_ifs with h
    · simp
    · cases hsr : splitOnWs rest <;> simp [hsr]

/-- Counting the nonempty pieces of the whitespace split equals counting
maximal non-whitespace runs; the second conjunct tracks whether the leading
piece extends a run already open on the left. -/
theorem splitOnWs_filter_length (cs : List Char) :
    ((splitOnWs cs).filter (fun p => !p.isEmpty)).length = countRuns false cs ∧
    (∀ hd tl, splitOnWs cs = hd :: tl →
      ((splitOnWs cs).filter (fun p => !p.isEmpty)).length
        = countRuns true cs + (if hd.isEmpty then 0 else 1)) := by
  induction cs with
  | nil =>
    refine ⟨rfl, ?_⟩
    intro hd tl h
    have hh : hd = ([] : List Char) := by
      simp only [splitOnWs] at h
      exact (List.cons.inj h).1.symm
    subst hh
    simp [splitOnWs, countRuns]
  | cons c rest ih =>
    by_cases hws : rustIsWhitespace c
    · have hsp : splitOnWs (c :: rest) = [] :: splitOnWs rest := by
        simp [splitOnWs, hws]
      have hlen : ((splitOnWs (c :: rest)).filter (fun p => !p.isEmpty)).length
          = ((splitOnWs rest).filter (fun p => !p.isEmpty)).length := by
        rw [hsp]; simp
      constructor
      · rw [hlen, ih.1]
        simp [countRuns, hws]
      · intro hd tl h
        rw [hsp] at h
        have hh : hd = ([] : List Char) := (List.cons.inj h).1.symm
        subst hh
        rw [hlen, ih.1]
        simp [countRuns, hws]
    · rcases hsr : splitOnWs rest with _ | ⟨h0, t0⟩
      · exact absurd hsr (splitOnWs_ne_nil rest)
      · have hsp : splitOnWs (c :: rest) = (c :: h0) :: t0 := by
          simp [splitOnWs, hws, hsr]
        have ih1 := ih.1
        have ih2 := ih.2 h0 t0 hsr
        rw [hsr] at ih1 ih2
        have hflt : (((c :: h0) :: t0).filter (fun p => !p.isEmpty)).length
            = (t0.filter (fun p => !p.isEmpty)).length + 1 := by
          simp [List.filter_cons]
        have hflt0 : ((h0 :: t0).filter (fun p => !p.isEmpty)).length
            = (t0.filter (fun p => !p.isEmpty)).length
              + (if h0.isEmpty then 0 else 1) := by
          by_cases he : h0.isEmpty <;> simp [List.filter_cons, he]
        rw [hflt0] at ih2
        have key : (t0.filter (fun p => !p.isEmpty)).length = countRuns true rest := by
          omega
        have hcrf : countRuns false (c :: rest) = 1 + countRuns true rest := by
          simp [countRuns, hws]
        have hcrt : countRuns true (c :: rest) = countRuns true rest := by
          simp [countRuns, hws]
        constructor
        · rw [hsp, hflt, hcrf]
          omega
        · intro hd tl h
          rw [hsp] at h
          have hh : hd = c :: h0 := (List.cons.inj h).1.symm
          subst hh
          rw [hsp, hflt, hcrt]
          have hne : ((c :: h0).isEmpty) = false := rfl
          simp only [hne, Bool.false_eq_true, if_false]
          omega

/-- Evaluation helper for C7: fifteen codepoints give a length bonus of
`0.03`; with the question bonus `0.15` and the urgency bonus `0.2` the
weight of `"Is this urgent?"` is `0.88`. -/
theorem weight_is_this_urgent : calculate_weight ("Is this urgent?") = 0.88 := by
  have hu : matchesAnyWord urgencyWords ("Is this urgent?") = true := by decide
  have hn : matchesAnyWord noiseWords ("Is this urgent?") = false := by decide
  have hq : ("Is this urgent?").data.contains '?' = true := by decide
  have hl : ("Is this urgent?").length = 15 := by decide
  simp only [calculate_weight, hu, hn, hq, hl, if_true, if_false]
  norm_num [clampQ, min_def]

/-! ## Claims -/

/-- **C1**: `count_tokens` returns exactly the number of tokens produced by
greedily applying the byte-pair-encoding merge rules of the (abstract) rank
table to the UTF-8 bytes of the input in ordinary mode, and
`count_tokens ""` is `0`. -/
theorem count_tokens_encode_ordinary (r : Ranks) (s : String) :
    count_tokens (okRun r) s = (encode_ordinary r s).length ∧
    count_tokens (okRun r) ("") = 0 :=
  ⟨rfl, rfl⟩

/-- **C2**: `count_tokens` never propagates a failure: a normal completion of
the wrapped encode step returns its count, and a panic of the encode step is
caught at the boundary and converted to the result `0`. -/
theorem count_tokens_never_crashes (run : String → Except Unit Nat) (s : String) :
    (∀ n, run s = Except.ok n → count_tokens run s = n) ∧
    (∀ e, run s = Except.error e → count_tokens run s = 0) := by
  constructor <;> intro x h <;> simp [count_tokens, h]

/-- Witness for C2: a concrete execution that panics on input `"boom"` is
converted to the result `0`. -/
theorem count_tokens_never_crashes_witness :
    (fun _ : String => (Except.error () : Except Unit Nat)) ("boom")
      = Except.error () ∧
    count_tokens (fun _ : String => Except.error ()) ("boom") = 0 :=
  ⟨rfl, (count_tokens_never_crashes (fun _ : String => Except.error ())
    ("boom")).2 () rfl⟩

/-- **C3**: `calculate_weight` always lands in `[0, 1]`, and the empty string
scores exactly `0.5`. -/
theorem calculate_weight_bounded :
    (∀ t : String, 0 ≤ calculate_weight t ∧ calculate_weight t ≤ 1) ∧
    calculate_weight ("") = 0.5 := by
  constructor
  · intro t
    simp only [calculate_weight]
    exact clampQ_mem 0 1 _ (by norm_num)
  · have hu : matchesAnyWord urgencyWords ("") = false := by decide
    have hn : matchesAnyWord noiseWords ("") = false := by decide
    have hq : ("").data.contains '?' = false := by decide
    have hl : ("").length = 0 := by decide
    simp only [calculate_weight, hu, hn, hq, hl, if_true, if_false]
    norm_num [clampQ, min_def]

/-- **C4**: `calculate_weight` is the clamp into `[0, 1]` of the sum of five
independently evaluated terms — base `0.5`, length bonus
`min(codepoints/500, 0.2)` over Unicode scalar values, `+0.15` for a literal
question mark, `+0.2` for a whole-word urgency match, `−0.3` for a whole-word
noise match — exactly as the specification words the formula. -/
theorem calculate_weight_formula (t : String) :
    calculate_weight t = specWeight t := by
  simp only [calculate_weight, specWeight, String.length]
  congr 1
  split_ifs <;> ring

/-- **C5**: `word_count` is the number of maximal runs of non-whitespace
characters — splitting at Unicode whitespace, collapsing consecutive
whitespace, ignoring leading and trailing whitespace — with the three
specified sample values. -/
theorem word_count_maximal_runs :
    (∀ t : String, word_count t = countRuns false t.data) ∧
    word_count ("") = 0 ∧ word_count ("   ") = 0 ∧ word_count ("a b  c") = 3 := by
  refine ⟨fun t => (splitOnWs_filter_length t.data).1, by decide, by decide, by decide⟩

/-- **C6**: `count_tokens` is deterministic: a second call on the same input,
from the `OnceLock` state the first call leaves behind (whether the table was
initialised beforehand or not), returns the same value. -/
theorem count_tokens_deterministic (mk : Ranks) (s : String) (st : TokState) :
    (count_tokens_st mk s (count_tokens_st mk s st).2).1
      = (count_tokens_st mk s st).1 := by
  obtain ⟨enc⟩ := st
  cases enc <;> rfl

/-- **C7** (counterexample): the weight of `"Is this urgent?"` is not `0.85`:
the claim omits the length bonus `15/500 = 0.03`. -/
theorem calculate_weight_urgent_not_085 :
    calculate_weight ("Is this urgent?") ≠ 0.85 := by
  rw [weight_is_this_urgent]
  norm_num

/-- **C7** (amended): `calculate_weight "Is this urgent?" = 0.88`: the
question bonus `+0.15` and the urgency bonus `+0.2` on top of the base `0.5`
together with the length bonus `+0.03` for its 15 codepoints, with no noise
penalty. -/
theorem calculate_weight_urgent_amended :
    calculate_weight ("Is this urgent?") = 0.88 ∧
    matchesAnyWord urgencyWords ("Is this urgent?") = true ∧
    matchesAnyWord noiseWords ("Is this urgent?") = false ∧
    ("Is this urgent?").data.contains '?' = true ∧
    ("Is this urgent?").length = 15 :=
  ⟨weight_is_this_urgent, by decide, by decide, by decide, by decide⟩

/-- **C8**: urgency and noise detection are whole-word and case-insensitive:
`"shellout"` does not trigger the noise penalty despite containing `"hello"`
as a substring (its weight is `0.5 + 8/500 = 0.516`), while `"URGENT"`,
`"urgent"` and `"Urgent"` all trigger the urgency bonus identically (each
scores `0.5 + 6/500 + 0.2 = 0.712`). -/
theorem word_boundary_matching :
    matchesAnyWord noiseWords ("shellout") = false ∧
    calculate_weight ("shellout") = 0.516 ∧
    matchesAnyWord urgencyWords ("URGENT") = true ∧
    matchesAnyWord urgencyWords ("urgent") = true ∧
    matchesAnyWord urgencyWords ("Urgent") = true ∧
    calculate_weight ("URGENT") = 0.712 ∧
    calculate_weight ("urgent") = 0.712 ∧
    calculate_weight ("Urgent") = 0.712 := by
  have hshell : calculate_weight ("shellout") = 0.516 := by
    have hu : matchesAnyWord urgencyWords ("shellout") = false := by decide
    have hn : matchesAnyWord noiseWords ("shellout") = false := by decide
    have hq : ("shellout").data.contains '?' = false := by decide
    have hl : ("shellout").length = 8 := by decide
    simp only [calculate_weight, hu, hn, hq, hl, if_true, if_false]
    norm_num [clampQ, min_def]
  have hup : calculate_weight ("URGENT") = 0.712 := by
    have hu : matchesAnyWord urgencyWords ("URGENT") = true := by decide
    have hn : matchesAnyWord noiseWords ("URGENT") = false := by decide
    have hq : ("URGENT").data.contains '?' = false := by decide
    have hl : ("URGENT").length = 6 := by decide
    simp only [calculate_weight, hu, hn, hq, hl, if_true, if_false]
    norm_num [clampQ, min_def]
  have hlo : calculate_weight ("urgent") = 0.712 := by
    have hu : matchesAnyWord urgencyWords ("urgent") = true := by decide
    have hn : matchesAnyWord noiseWords ("urgent") = false := by decide
    have hq : ("urgent").data.contains '?' = false := by decide
    have hl : ("urgent").length = 6 := by decide
    simp only [calculate_weight, hu, hn, hq, hl, if_true, if_false]
    norm_num [clampQ, min_def]
  have hmx : calculate_weight ("Urgent") = 0.712 := by
    have hu : matchesAnyWord urgencyWords ("Urgent") = true := by decide
    have hn : matchesAnyWord noiseWords ("Urgent") = false := by decide
    have hq : ("Urgent").data.contains '?' = false := by decide
    have hl : ("Urgent").length = 6 := by decide
    simp only [calculate_weight, hu, hn, hq, hl, if_true, if_false]
    norm_num [clampQ, min_def]
  exact ⟨by decide, hshell, by decide, by decide, by decide, hup, hlo, hmx⟩

/-- **C9**: the noise penalty is applied at most once per call:
`"hey thanks"` matches both `"hey"` and `"thanks"` yet scores
`0.5 + 10/500 − 0.3 = 0.22`, i.e. a single `−0.3` rather than two. -/
theorem noise_penalty_once :
    calculate_weight ("hey thanks") = 0.22 ∧
    matchesAnyWord (["hey"]) ("hey thanks") = true ∧
    matchesAnyWord (["thanks"]) ("hey thanks") = true ∧
    matchesAnyWord noiseWords ("hey thanks") = true := by
  have hval : calculate_weight ("hey thanks") = 0.22 := by
    have hu : matchesAnyWord urgencyWords ("hey thanks") = false := by decide
    have hn : matchesAnyWord noiseWords ("hey thanks") = true := by decide
    have hq : ("hey thanks").data.contains '?' = false := by decide
    have hl : ("hey thanks").length = 10 := by decide
    simp only [calculate_weight, hu, hn, hq, hl, if_true, if_false]
    norm_num [clampQ, min_def]
  exact ⟨hval, by decide, by decide, by decide⟩

/-- **C10**: the weight never falls below `0.2`: the only negative term is
the single `−0.3` noise penalty against the base `0.5`, the other terms being
non-negative, so the output range is `[0.2, 1]` and the lower clamp at `0` is
never the binding bound. -/
theorem calculate_weight_ge_02 (t : String) :
    0.2 ≤ calculate_weight t ∧ calculate_weight t ≤ 1 := by
  simp only [calculate_weight]
  have hlen : (0 : ℚ) ≤ min ((t.length : ℚ) / 500) 0.2 :=
    le_min (by positivity) (by norm_num)
  constructor
  · refine le_clampQ 0.2 0 1 _ ?_ (by norm_num)
    split_ifs <;> linarith
  · exact (clampQ_mem 0 1 _ (by norm_num)).2

end OSA
